import Mathlib

/-!
Verification of the dependency-resolution container described in the
repository specification.  The core module (registry, introspector,
resolver, container facade) is not shipped under `src/` — only its test
suite and the celery adapter are — so the data model and the operations
below are modelled from the specification, with the repository tests
pinning observable behaviour where they speak.

The embedding is executable: objects of the embedded dynamic language are
a small inductive type, a container definition is a linear chain of
per-definition registries, and the resolver is a fuel-indexed recursive
function whose fuel is sized from the registry so that, as proved below,
it can never exhaust its stack.
-/

set_option maxHeartbeats 1000000

mutual

/-- Modelled from the spec: objects of the embedded dynamic language.  A
registered specification is an arbitrary object: a plain value (here an
integer or a string), a function (kept opaque, identified by a tag, since
the resolver returns functions as-is), a class, or an instance produced by
construction (class name together with the resolved keyword arguments,
which model the state the initializer stores). -/
inductive Obj : Type where
  | int : Int → Obj
  | str : String → Obj
  | func : String → Obj
  | pyClass : PyClass → Obj
  | inst : String → List (String × Obj) → Obj

/-- Modelled from the spec: a constructible (a class).  It carries its
name, its own initializer if it declares one, its single parent if any,
and whether running its initializer raises (used to show that deletion
never runs initializers). -/
inductive PyClass : Type where
  | mk : String → Option InitSpec → Option PyClass → Bool → PyClass

/-- Modelled from the spec: the introspected initializer signature — the
parameters in declaration order, each with its name and optional default
value, and the two variadic flags (unbounded positional, unbounded
keyword). -/
inductive InitSpec : Type where
  | mk : List (String × Option Obj) → Bool → Bool → InitSpec

end

def PyClass.name : PyClass → String
  | .mk n _ _ _ => n

def PyClass.ownInit : PyClass → Option InitSpec
  | .mk _ i _ _ => i

def PyClass.parent : PyClass → Option PyClass
  | .mk _ _ p _ => p

def PyClass.raises : PyClass → Bool
  | .mk _ _ _ r => r

def InitSpec.params : InitSpec → List (String × Option Obj)
  | .mk ps _ _ => ps

def InitSpec.hasVarPos : InitSpec → Bool
  | .mk _ p _ => p

def InitSpec.hasVarKw : InitSpec → Bool
  | .mk _ _ k => k

/-- Modelled from the spec (Constructor Introspector): the effective
initializer of a class is its own one when it declares one, otherwise the
first initializer found walking the ancestor chain; a class that inherits
the trivial default all the way up has no effective initializer and an
empty parameter list. -/
def effectiveInit : PyClass → Option InitSpec
  | .mk _ (some i) _ _ => some i
  | .mk _ none none _ => none
  | .mk _ none (some p) _ => effectiveInit p

/-- Modelled from the spec (Error Handling Design): the single error
family.  `notFound` is the distinct not-found error (an `AttributeError`
in the tests); the others are configuration/resolution errors
(`DependencyError` in the tests).  `stackOverflow` models exhausting the
call stack; the resolver is proved never to produce it. -/
inductive DepError : Type where
  | notFound : String → DepError
  | circle : String → String → DepError
  | varArgs : String → Bool → Bool → DepError
  | reservedName : String → DepError
  | denyModifyBase : DepError
  | directInstantiation : DepError
  | initFailure : String → DepError
  | stackOverflow : DepError
deriving DecidableEq

/-- Rendering of the error messages used by the configuration errors the
tests inspect (the tests quote dependency names; the quoting characters
are elided here). -/
def DepError.message : DepError → String
  | .varArgs cn p k =>
      cn ++ (".__init__ have arbitrary " ++
        (if p && k then "argument list and keyword arguments"
         else if p then "argument list"
         else "keyword arguments"))
  | .circle nm cn => nm ++ (" is a circle dependency in the " ++ (cn ++ " constructor"))
  | .notFound nm => nm ++ " can not be found"
  | _ => "dependency error"

/-- One definition's own Specification Registry: an ordered mapping from
names to raw specifications. -/
abbrev Registry := List (String × Obj)

/-- Modelled from the spec: a Container Definition is an ordered linear
chain of registries — its own registry first, then its ancestors' in
order.  The library's canonical empty base definition is the empty
chain. -/
abbrev ContainerDef := List Registry

/-- Modelled from the spec (Specification Registry): chained lookup — each
definition is searched before its ancestors, so the most-derived entry for
a name wins. -/
def lookupChain : ContainerDef → String → Option Obj
  | [], _ => none
  | r :: rest, n =>
    match List.lookup n r with
    | some o => some o
    | none => lookupChain rest n

/-- All registry entries visible along the chain, most-derived first. -/
def flattenRegs : ContainerDef → Registry
  | [] => []
  | r :: rest => r ++ flattenRegs rest

/-- The names of all entries along the chain (with multiplicity). -/
def keysOf (d : ContainerDef) : List String :=
  (flattenRegs d).map Prod.fst

/-- Fuel budget for one top-level resolution: one more than the number of
registered entries, which suffices because the in-progress set only ever
holds distinct registered names. -/
def totalFuel (d : ContainerDef) : Nat :=
  (keysOf d).length + 1

/-- Whether the first character list is a prefix of the second, executed
structurally so that closed instances evaluate. -/
def listStarts : List Char → List Char → Bool
  | [], _ => true
  | _ :: _, [] => false
  | a :: as, b :: bs => a == b && listStarts as bs

/-- The suffix test the resolver applies to requested names (the semantics
of the source language string suffix check, on character data). -/
def strEndsWith (s suf : String) : Bool :=
  listStarts suf.data.reverse s.data.reverse

/-- The prefix test used by the dunder-shape check. -/
def strStartsWith (s pre : String) : Bool :=
  listStarts pre.data s.data

/-- Modelled from the spec: constructing an instance of a class from the
resolved keyword arguments (defaulted parameters included with their
default values, modelling the state the initializer stores).  A class
whose initializer raises yields an initializer failure instead. -/
def construct (c : PyClass) (kwargs : List (String × Obj)) : Except DepError Obj :=
  if PyClass.raises c then .error (.initFailure (PyClass.name c))
  else .ok (.inst (PyClass.name c) kwargs)

/-- Modelled from the spec (Resolver step 4): resolve the constructor
parameters in order with the supplied resolver.  A parameter whose
resolution fails with not-found is satisfied by its declared default when
it has one; with no default the not-found error aborts the whole
resolution; any other error propagates unconditionally. -/
def resolveKwargs (res : String → Except DepError Obj) :
    List (String × Option Obj) → Except DepError (List (String × Obj))
  | [] => .ok []
  | (pname, dflt) :: rest =>
    match res pname, dflt with
    | .ok v, _ =>
      match resolveKwargs res rest with
      | .ok kw => .ok ((pname, v) :: kw)
      | .error e => .error e
    | .error (DepError.notFound _), some dv =>
      match resolveKwargs res rest with
      | .ok kw => .ok ((pname, dv) :: kw)
      | .error e => .error e
    | .error (DepError.notFound m), none => .error (DepError.notFound m)
    | .error e, _ => .error e

/-- Modelled from the spec (Resolver — core algorithm): resolve one name
against the chain.  A name already in the in-progress frame is a circular
dependency, reported with the name and the constructible whose constructor
demanded it; an unregistered name is not-found; a class stored under a
name ending in the reserved suffix is returned as the class object itself;
any other class is introspected and constructed from its recursively
resolved parameters; every other object is returned as-is. -/
def resolveIn (d : ContainerDef) : Nat → List String → String → String → Except DepError Obj
  | 0, _, _, _ => .error .stackOverflow
  | fuel + 1, frame, demander, name =>
    if name ∈ frame then .error (.circle name demander)
    else
      match lookupChain d name with
      | none => .error (.notFound name)
      | some (Obj.pyClass c) =>
        if strEndsWith name "_cls" then .ok (Obj.pyClass c)
        else
          match effectiveInit c with
          | none => construct c []
          | some (InitSpec.mk ps hvp hvk) =>
            if hvp || hvk then .error (.varArgs (PyClass.name c) hvp hvk)
            else
              match resolveKwargs (fun q => resolveIn d fuel (name :: frame) (PyClass.name c) q) ps with
              | .ok kwargs => construct c kwargs
              | .error e => .error e
      | some o => .ok o

/-- Modelled from the spec: one top-level resolution (an attribute-style
read) starts with an empty in-progress frame and a fuel budget sized from
the visible registry. -/
def resolve (d : ContainerDef) (name : String) : Except DepError Obj :=
  resolveIn d (totalFuel d) [] "" name

/-- Modelled from the spec (Container Facade): a registrable name is
neither the reserved factory name nor dunder-shaped
(double-underscore-prefixed-and-suffixed). -/
def validName (n : String) : Bool :=
  !(n == "let" || (strStartsWith n "__" && strEndsWith n "__"))

/-- Validation applied at every mutation entry point.  The reserved-name
check follows the spec; the unbounded-argument check on class values is
pinned at this point by the repository tests
(`test_deny_arbitrary_argument_list` and friends raise during plain
registration, with no resolution involved). -/
def checkSpec (n : String) (o : Obj) : Except DepError Unit :=
  if validName n then
    match o with
    | .pyClass c =>
      if strEndsWith n "_cls" then .ok ()
      else
        match effectiveInit c with
        | some (InitSpec.mk _ hvp hvk) =>
          if hvp || hvk then .error (.varArgs (PyClass.name c) hvp hvk) else .ok ()
        | none => .ok ()
    | _ => .ok ()
  else .error (.reservedName n)

/-- Modelled from the spec: attribute-style write.  Mutating the canonical
empty base definition is rejected; otherwise the validated entry replaces
any previous entry of the same name in the definition's own registry. -/
def setAttr (d : ContainerDef) (n : String) (o : Obj) : Except DepError ContainerDef :=
  match d with
  | [] => .error .denyModifyBase
  | r :: rest =>
    match checkSpec n o with
    | .ok _ => .ok (((n, o) :: r.filter (fun p => !(p.1 == n))) :: rest)
    | .error e => .error e

/-- Register a namespace of specifications one by one, stopping at the
first rejected entry. -/
def declareFrom (d : ContainerDef) : List (String × Obj) → Except DepError ContainerDef
  | [] => .ok d
  | (n, o) :: rest =>
    match setAttr d n o with
    | .ok d2 => declareFrom d2 rest
    | .error e => .error e

/-- Modelled from the spec: class-body style declaration — registering
each name of the class body into a fresh definition whose ancestor chain
is the declared base. -/
def declare (base : ContainerDef) (ns : List (String × Obj)) : Except DepError ContainerDef :=
  declareFrom (([] : Registry) :: base) ns

/-- Modelled from the spec: the override factory (the `let` classmethod)
returns a new definition layering the overrides over the receiver, with
the same validation as declaration. -/
def letFactory (base : ContainerDef) (overrides : List (String × Obj)) :
    Except DepError ContainerDef :=
  declare base overrides

/-- Modelled from the spec: attribute-style delete.  It removes the entry
from the definition's own registry only (it is not chain-aware) and fails
with the not-found error when the name is absent there; on the canonical
empty base definition there is nothing to delete. -/
def deleteAttr (d : ContainerDef) (n : String) : Except DepError ContainerDef :=
  match d with
  | [] => .error (.notFound n)
  | r :: rest =>
    if (List.lookup n r).isSome then
      .ok ((r.filter (fun p => !(p.1 == n))) :: rest)
    else .error (.notFound n)

/-- Modelled from the spec: calling a Container Definition as a
constructor fails with the configuration error before any of the supplied
positional or keyword arguments is examined — never with an ordinary
argument-mismatch error. -/
def callDefinition (_ : ContainerDef) (_ : List Obj) (_ : List (String × Obj)) :
    Except DepError Obj :=
  .error .directInstantiation

/-- Remove every binding of a name from the ancestor part of a chain
(used to state that a descendant redefinition shadows the ancestors'
entries entirely). -/
def scrubName (n : String) (d : ContainerDef) : ContainerDef :=
  d.map (fun r => r.filter (fun p => !(p.1 == n)))

/-- The value a constructor parameter receives when every registered
specification in sight is a plain value: the registered specification
when one exists, the declared default otherwise, and nothing when the
parameter is missing. -/
def paramOutcome (d : ContainerDef) (p : String × Option Obj) : Option Obj :=
  match lookupChain d p.1 with
  | some v => some v
  | none => p.2

/-- A lookup result that does not trigger instantiation: absent, or any
object other than a class. -/
def plainSpec : Option Obj → Bool
  | none => true
  | some (Obj.pyClass _) => false
  | some _ => true

/-- The name the head of a dependency path demands next: the following
path entry, or the cycle target once the path is exhausted. -/
def nextName : List (String × String) → String → String
  | [], y => y
  | (x, _) :: _, _ => x

/-- A chain of class-valued registrations in which each listed name is
bound to a class of the paired class name whose single (defaultless)
constructor parameter is the next listed name, the last one demanding the
cycle target `y`. -/
def cycleLinks (d : ContainerDef) : List (String × String) → String → Prop
  | [], _ => True
  | (x, c) :: rest, y =>
    lookupChain d x =
      some (Obj.pyClass (PyClass.mk c
        (some (InitSpec.mk [(nextName rest y, none)] false false)) none false))
    ∧ strEndsWith x "_cls" = false
    ∧ cycleLinks d rest y

/-- The class name of the last entry of a dependency path (the
constructible whose constructor demands the cycle target). -/
def lastClass : String → List (String × String) → String
  | c, [] => c
  | _, (_, c2) :: rest => lastClass c2 rest

/-- Invariant of reachable definitions: no registry along the chain holds
a reserved (factory or dunder-shaped) name. -/
def goodNames (d : ContainerDef) : Prop :=
  ∀ r ∈ d, ∀ p ∈ r, validName (Prod.fst p) = true

/-! Concrete classes and containers mirroring the repository tests, used
to instantiate the theorems below on closed inputs. -/

/-- The class `Foo.__init__(self, add)` from `test_redefine_dependency`. -/
def fooAddClass : PyClass :=
  .mk "Foo" (some (.mk [("add", none)] false false)) none false

/-- The registry of `Summator(Injector)` from `test_redefine_dependency`. -/
def summatorReg : Registry :=
  [("foo", Obj.pyClass fooAddClass), ("add", Obj.func "plus")]

/-- The own registry of `WrongSummator(Summator)`, redefining `add`. -/
def wrongReg : Registry :=
  [("add", Obj.func "minus")]

/-- The chain of `WrongSummator`. -/
def wrongSummator : ContainerDef :=
  [wrongReg, summatorReg]

/-- The class `Foo.__init__(self, x, y=1, z=2)` from
`test_preserve_missed_keyword_argument_in_the_middle`. -/
def fooXYZClass : PyClass :=
  .mk "Foo" (some (.mk [("x", none), ("y", some (Obj.int 1)), ("z", some (Obj.int 2))]
    false false)) none false

/-- The `Container` definition registering `foo`, `x = 5` and `z = 1`. -/
def containerXYZ : ContainerDef :=
  [[("foo", Obj.pyClass fooXYZClass), ("x", Obj.int 5), ("z", Obj.int 1)]]

/-- The class `Foo.__init__(self, one, two=2)` from
`test_attribute_error_with_keyword_arguments_present`. -/
def fooOneTwoClass : PyClass :=
  .mk "Foo" (some (.mk [("one", none), ("two", some (Obj.int 2))] false false)) none false

/-- The `Bar` definition registering only `foo`. -/
def barOneTwo : ContainerDef :=
  [[("foo", Obj.pyClass fooOneTwoClass)]]

/-- The class `Foo.__init__(self, bar)` from the circle tests. -/
def fooNeedsBar : PyClass :=
  .mk "Foo" (some (.mk [("bar", none)] false false)) none false

/-- The class `Bar.__init__(self, baz)` from `test_complex_circle_dependencies_long_circle`. -/
def barNeedsBaz : PyClass :=
  .mk "Bar" (some (.mk [("baz", none)] false false)) none false

/-- The class `Baz.__init__(self, foo)` from `test_complex_circle_dependencies_long_circle`. -/
def bazNeedsFoo : PyClass :=
  .mk "Baz" (some (.mk [("foo", none)] false false)) none false

/-- The `Test` definition closing the three-name circle. -/
def circleTest : ContainerDef :=
  [[("foo", Obj.pyClass fooNeedsBar), ("bar", Obj.pyClass barNeedsBaz),
    ("baz", Obj.pyClass bazNeedsFoo)]]

/-- A class with no initializer anywhere, as in
`test_do_not_instantiate_dependencies_ended_with_cls`. -/
def fooPlainClass : PyClass := .mk "Foo" none none false

/-- The definition registering `foo_cls` with a class value. -/
def barClsContainer : ContainerDef :=
  [[("foo_cls", Obj.pyClass fooPlainClass)]]

/-- The class `Foo.__init__(self, x, y)` from `test_injectable_with_parent_init`. -/
def fooParentInit : PyClass :=
  .mk "Foo" (some (.mk [("x", none), ("y", none)] false false)) none false

/-- The class `Bar(Foo)` with no own initializer, inheriting the parent's. -/
def barChild : PyClass := .mk "Bar" none (some fooParentInit) false

/-- The class `Bar` flattened: the same class with the ancestor initializer made its
own. -/
def barChildFlat : PyClass :=
  .mk "Bar" (effectiveInit fooParentInit) none false

/-- The `Baz` definition from `test_injectable_with_parent_init`. -/
def bazParent : ContainerDef :=
  [[("bar", Obj.pyClass barChild), ("x", Obj.int 1), ("y", Obj.int 2)]]

/-- The same definition with the flattened class registered instead. -/
def bazParentFlat : ContainerDef :=
  [[("bar", Obj.pyClass barChildFlat), ("x", Obj.int 1), ("y", Obj.int 2)]]

/-- A subclass chain with no initializer anywhere, as in
`test_injectable_with_parent_without_init`. -/
def barNoInitChild : PyClass :=
  .mk "Bar" none (some (.mk "Foo" none none false)) false

/-- The `Baz` definition from `test_injectable_with_parent_without_init`. -/
def bazNoInit : ContainerDef :=
  [[("bar", Obj.pyClass barNoInitChild)]]

/-- The class `Foo.__init__(self, *args)` from `test_deny_arbitrary_argument_list`. -/
def fooVarPos : PyClass := .mk "Foo" (some (.mk [] true false)) none false

/-- The class `Foo.__init__(self, **kwargs)` from `test_deny_arbitrary_keyword_arguments`. -/
def fooVarKw : PyClass := .mk "Foo" (some (.mk [] false true)) none false

/-- The class `Foo.__init__(self, *args, **kwargs)` from
`test_deny_arbitrary_positional_and_keyword_arguments_together`. -/
def fooVarBoth : PyClass := .mk "Foo" (some (.mk [] true true)) none false

/-- The class `Bar` with the trivial constructor from `test_unregister_dependency`. -/
def barPlainClass : PyClass := .mk "Bar" none none false

/-- The `Baz` definition of `test_unregister_dependency`, registering
`foo` (which needs `bar`) and `bar`. -/
def bazUnregister : ContainerDef :=
  [[("foo", Obj.pyClass fooNeedsBar), ("bar", Obj.pyClass barPlainClass)]]

/-- The class `Foo` whose initializer raises, from
`test_unregister_do_not_use_object_constructor`. -/
def fooRaising : PyClass := .mk "Foo" (some (.mk [] false false)) none true

/-- The `Bar` definition registering the raising class. -/
def barRaising : ContainerDef :=
  [[("foo", Obj.pyClass fooRaising)]]

/-! General lemmas about chained lookup and registries. -/

theorem lookup_mem_keys {r : Registry} {n : String} {o : Obj}
    (h : List.lookup n r = some o) : n ∈ r.map Prod.fst := by
  induction r with
  | nil => simp [List.lookup] at h
  | cons p rest ih =>
    obtain ⟨k, v⟩ := p
    simp only [List.lookup] at h
    cases hk : (n == k) with
    | true =>
      simp [List.map_cons]
      left
      exact eq_of_beq hk
    | false =>
      rw [hk] at h
      simp only [List.map_cons, List.mem_cons]
      right
      exact ih h

theorem lookupChain_mem_keys {d : ContainerDef} {n : String} {o : Obj}
    (h : lookupChain d n = some o) : n ∈ keysOf d := by
  induction d with
  | nil => simp [lookupChain] at h
  | cons r rest ih =>
    simp only [lookupChain] at h
    cases hl : List.lookup n r with
    | some v =>
      have : n ∈ r.map Prod.fst := lookup_mem_keys hl
      simp [keysOf, flattenRegs, this]
    | none =>
      rw [hl] at h
      have := ih h
      simp only [keysOf, flattenRegs, List.map_append, List.mem_append]
      right
      exact this

theorem nodup_subset_length {l1 l2 : List String} (h1 : l1.Nodup)
    (h2 : ∀ x ∈ l1, x ∈ l2) : l1.length ≤ l2.length := by
  induction l1 generalizing l2 with
  | nil => simp
  | cons a tl ih =>
    rw [List.nodup_cons] at h1
    have ha : a ∈ l2 := h2 a (List.mem_cons_self a tl)
    have htl : ∀ x ∈ tl, x ∈ l2.erase a := by
      intro x hx
      have hne : x ≠ a := fun he => h1.1 (he ▸ hx)
      exact (List.mem_erase_of_ne hne).mpr (h2 x (List.mem_cons_of_mem a hx))
    have hlen := ih h1.2 htl
    have herase : (l2.erase a).length = l2.length - 1 := List.length_erase_of_mem ha
    have hpos : 0 < l2.length := List.length_pos_of_mem ha
    simp only [List.length_cons]
    omega

theorem lookup_filter_ne {r : Registry} {m n : String} (h : m ≠ n) :
    List.lookup m (r.filter (fun p => !(p.1 == n))) = List.lookup m r := by
  induction r with
  | nil => rfl
  | cons p rest ih =>
    obtain ⟨k, v⟩ := p
    by_cases hk : k = n
    · subst hk
      have hm : (m == k) = false := beq_eq_false_iff_ne.mpr h
      simp [List.filter_cons, List.lookup, hm, ih]
    · have hkn : (k == n) = false := beq_eq_false_iff_ne.mpr hk
      cases hmk : (m == k) with
      | true => simp [List.filter_cons, List.lookup, hkn, hmk]
      | false => simp [List.filter_cons, List.lookup, hkn, hmk, ih]

theorem lookup_filter_self {r : Registry} {n : String} :
    List.lookup n (r.filter (fun p => !(p.1 == n))) = none := by
  induction r with
  | nil => rfl
  | cons p rest ih =>
    obtain ⟨k, v⟩ := p
    by_cases hk : k = n
    · subst hk
      simp [List.filter_cons, ih]
    · have hkn : (k == n) = false := beq_eq_false_iff_ne.mpr hk
      have hnk : (n == k) = false := beq_eq_false_iff_ne.mpr (Ne.symm hk)
      simp [List.filter_cons, List.lookup, hkn, hnk, ih]

theorem lookupChain_scrub_ne {d : ContainerDef} {m n : String} (h : m ≠ n) :
    lookupChain (scrubName n d) m = lookupChain d m := by
  induction d with
  | nil => rfl
  | cons r rest ih =>
    simp only [scrubName, List.map_cons, lookupChain]
    rw [lookup_filter_ne h]
    cases List.lookup m r with
    | some v => rfl
    | none => simpa [scrubName] using ih

/-! Lemmas about parameter resolution. -/

theorem resolveKwargs_congr {res res2 : String → Except DepError Obj}
    {ps : List (String × Option Obj)}
    (h : ∀ pn ∈ ps.map Prod.fst, res pn = res2 pn) :
    resolveKwargs res ps = resolveKwargs res2 ps := by
  induction ps with
  | nil => rfl
  | cons p rest ih =>
    obtain ⟨pname, dflt⟩ := p
    have hh : res pname = res2 pname := h pname (by simp)
    have ht : ∀ pn ∈ rest.map Prod.fst, res pn = res2 pn :=
      fun pn hm => h pn (by simp [hm])
    simp only [resolveKwargs]
    rw [hh, ih ht]

theorem resolveKwargs_error {res : String → Except DepError Obj}
    {ps : List (String × Option Obj)} {e : DepError}
    (h : resolveKwargs res ps = .error e) :
    ∃ pn ∈ ps.map Prod.fst, res pn = .error e := by
  induction ps with
  | nil => simp [resolveKwargs] at h
  | cons p rest ih =>
    obtain ⟨pname, dflt⟩ := p
    simp only [resolveKwargs] at h
    cases hres : res pname with
    | ok v =>
      rw [hres] at h
      cases hr : resolveKwargs res rest with
      | ok kw => rw [hr] at h; simp at h
      | error e2 =>
        rw [hr] at h
        simp only [Except.error.injEq] at h
        subst h
        obtain ⟨pn, hm, hp⟩ := ih hr
        exact ⟨pn, by simp [hm], hp⟩
    | error err =>
      rw [hres] at h
      cases err with
      | notFound mm =>
        cases dflt with
        | some dv =>
          cases hr : resolveKwargs res rest with
          | ok kw => rw [hr] at h; simp at h
          | error e2 =>
            rw [hr] at h
            simp only [Except.error.injEq] at h
            subst h
            obtain ⟨pn, hm, hp⟩ := ih hr
            exact ⟨pn, by simp [hm], hp⟩
        | none =>
          simp only [Except.error.injEq] at h
          subst h
          exact ⟨pname, by simp, hres⟩
      | circle a b =>
        simp only [Except.error.injEq] at h
        subst h
        exact ⟨pname, by simp, hres⟩
      | varArgs a b c =>
        simp only [Except.error.injEq] at h
        subst h
        exact ⟨pname, by simp, hres⟩
      | reservedName a =>
        simp only [Except.error.injEq] at h
        subst h
        exact ⟨pname, by simp, hres⟩
      | denyModifyBase =>
        simp only [Except.error.injEq] at h
        subst h
        exact ⟨pname, by simp, hres⟩
      | directInstantiation =>
        simp only [Except.error.injEq] at h
        subst h
        exact ⟨pname, by simp, hres⟩
      | initFailure a =>
        simp only [Except.error.injEq] at h
        subst h
        exact ⟨pname, by simp, hres⟩
      | stackOverflow =>
        simp only [Except.error.injEq] at h
        subst h
        exact ⟨pname, by simp, hres⟩

theorem construct_ne_overflow (c : PyClass) (kw : List (String × Obj)) :
    construct c kw ≠ .error .stackOverflow := by
  unfold construct
  by_cases h : PyClass.raises c = true <;> simp [h]

theorem resolveKwargs_extend {res res2 : String → Except DepError Obj}
    (hag : ∀ pn, res pn ≠ .error .stackOverflow → res2 pn = res pn) :
    ∀ {ps : List (String × Option Obj)},
      resolveKwargs res ps ≠ .error .stackOverflow →
      resolveKwargs res2 ps = resolveKwargs res ps := by
  intro ps
  induction ps with
  | nil => intro _; rfl
  | cons p rest ih =>
    intro hno
    obtain ⟨pname, dflt⟩ := p
    cases hres : res pname with
    | ok v =>
      have h2 : res2 pname = res pname := hag pname (by rw [hres]; simp)
      have hrest : resolveKwargs res rest ≠ .error .stackOverflow := by
        intro hcon
        apply hno
        simp [resolveKwargs, hres, hcon]
      simp only [resolveKwargs, h2, hres]
      rw [ih hrest]
    | error err =>
      cases err with
      | stackOverflow =>
        exfalso
        apply hno
        cases dflt <;> simp [resolveKwargs, hres]
      | notFound m =>
        have h2 : res2 pname = res pname := hag pname (by rw [hres]; simp)
        cases dflt with
        | some dv =>
          have hrest : resolveKwargs res rest ≠ .error .stackOverflow := by
            intro hcon
            apply hno
            simp [resolveKwargs, hres, hcon]
          simp only [resolveKwargs, h2, hres]
          rw [ih hrest]
        | none => simp only [resolveKwargs, h2, hres]
      | circle a b =>
        have h2 : res2 pname = res pname := hag pname (by rw [hres]; simp)
        simp only [resolveKwargs, h2, hres]
      | varArgs a b c =>
        have h2 : res2 pname = res pname := hag pname (by rw [hres]; simp)
        simp only [resolveKwargs, h2, hres]
      | reservedName a =>
        have h2 : res2 pname = res pname := hag pname (by rw [hres]; simp)
        simp only [resolveKwargs, h2, hres]
      | denyModifyBase =>
        have h2 : res2 pname = res pname := hag pname (by rw [hres]; simp)
        simp only [resolveKwargs, h2, hres]
      | directInstantiation =>
        have h2 : res2 pname = res pname := hag pname (by rw [hres]; simp)
        simp only [resolveKwargs, h2, hres]
      | initFailure a =>
        have h2 : res2 pname = res pname := hag pname (by rw [hres]; simp)
        simp only [resolveKwargs, h2, hres]

theorem resolveIn_mono (d : ContainerDef) :
    ∀ (f : Nat) (f2 : Nat), f ≤ f2 → ∀ (fr : List String) (dm nm : String),
      resolveIn d f fr dm nm ≠ .error .stackOverflow →
      resolveIn d f2 fr dm nm = resolveIn d f fr dm nm := by
  intro f
  induction f with
  | zero =>
    intro f2 _ fr dm nm hno
    exact absurd rfl hno
  | succ k ih =>
    intro f2 hle fr dm nm hno
    obtain ⟨k2, rfl⟩ : ∃ k2, f2 = k2 + 1 := ⟨f2 - 1, by omega⟩
    have hk : k ≤ k2 := by omega
    by_cases hmem : nm ∈ fr
    · simp [resolveIn, hmem]
    · cases hl : lookupChain d nm with
      | none => simp [resolveIn, hmem, hl]
      | some o =>
        cases o with
        | int v => simp [resolveIn, hmem, hl]
        | str v => simp [resolveIn, hmem, hl]
        | func v => simp [resolveIn, hmem, hl]
        | inst a b => simp [resolveIn, hmem, hl]
        | pyClass c =>
          by_cases hcls : strEndsWith nm "_cls" = true
          · simp [resolveIn, hmem, hl, hcls]
          · cases hi : effectiveInit c with
            | none => simp [resolveIn, hmem, hl, hcls, hi]
            | some i =>
              obtain ⟨ps, hvp, hvk⟩ := i
              by_cases hfl : (hvp || hvk) = true
              · simp [resolveIn, hmem, hl, hcls, hi, hfl]
              · have hkw : resolveKwargs
                    (fun q => resolveIn d k (nm :: fr) (PyClass.name c) q) ps ≠
                    .error .stackOverflow := by
                  intro hcon
                  apply hno
                  simp [resolveIn, hmem, hl, hcls, hi, hfl, hcon]
                have hpt : ∀ pn,
                    (fun q => resolveIn d k (nm :: fr) (PyClass.name c) q) pn ≠
                      .error .stackOverflow →
                    (fun q => resolveIn d k2 (nm :: fr) (PyClass.name c) q) pn =
                      (fun q => resolveIn d k (nm :: fr) (PyClass.name c) q) pn :=
                  fun pn hpn => ih k2 hk (nm :: fr) (PyClass.name c) pn hpn
                have heq := resolveKwargs_extend hpt hkw
                simp [resolveIn, hmem, hl, hcls, hi, hfl, heq]

theorem resolveIn_no_overflow (d : ContainerDef) :
    ∀ (f : Nat) (fr : List String) (dm nm : String), fr.Nodup →
      (∀ x ∈ fr, x ∈ keysOf d) → (keysOf d).length + 1 ≤ f + fr.length →
      resolveIn d f fr dm nm ≠ .error .stackOverflow := by
  intro f
  induction f with
  | zero =>
    intro fr dm nm hnd hsub harith
    have := nodup_subset_length hnd hsub
    omega
  | succ k ih =>
    intro fr dm nm hnd hsub harith
    by_cases hmem : nm ∈ fr
    · simp [resolveIn, hmem]
    · cases hl : lookupChain d nm with
      | none => simp [resolveIn, hmem, hl]
      | some o =>
        cases o with
        | int v => simp [resolveIn, hmem, hl]
        | str v => simp [resolveIn, hmem, hl]
        | func v => simp [resolveIn, hmem, hl]
        | inst a b => simp [resolveIn, hmem, hl]
        | pyClass c =>
          by_cases hcls : strEndsWith nm "_cls" = true
          · simp [resolveIn, hmem, hl, hcls]
          · cases hi : effectiveInit c with
            | none =>
              simp only [resolveIn, hmem, hl, hcls, hi]
              simp [construct_ne_overflow]
            | some i =>
              obtain ⟨ps, hvp, hvk⟩ := i
              by_cases hfl : (hvp || hvk) = true
              · simp [resolveIn, hmem, hl, hcls, hi, hfl]
              · have hnd2 : (nm :: fr).Nodup := List.nodup_cons.mpr ⟨hmem, hnd⟩
                have hsub2 : ∀ x ∈ nm :: fr, x ∈ keysOf d := by
                  intro x hx
                  rcases List.mem_cons.mp hx with hx | hx
                  · subst hx; exact lookupChain_mem_keys hl
                  · exact hsub x hx
                have harith2 : (keysOf d).length + 1 ≤ k + (nm :: fr).length := by
                  simp only [List.length_cons]; omega
                have hkw : resolveKwargs
                    (fun q => resolveIn d k (nm :: fr) (PyClass.name c) q) ps ≠
                    .error .stackOverflow := by
                  intro hcon
                  obtain ⟨pn, _, hp⟩ := resolveKwargs_error hcon
                  exact ih (nm :: fr) (PyClass.name c) pn hnd2 hsub2 harith2 hp
                cases hkwv : resolveKwargs
                    (fun q => resolveIn d k (nm :: fr) (PyClass.name c) q) ps with
                | ok kw =>
                  simp only [resolveIn, hmem, hl, hcls, hi, hfl, hkwv]
                  simp [construct_ne_overflow]
                | error e =>
                  have he : e ≠ DepError.stackOverflow := by
                    intro hcon; subst hcon; exact hkw hkwv
                  simp [resolveIn, hmem, hl, hcls, hi, hfl, hkwv, he]

theorem resolveIn_agree (d d2 : ContainerDef) (bad : List String)
    (hag : ∀ m, m ∉ bad → lookupChain d m = lookupChain d2 m) :
    ∀ (f : Nat) (fr : List String) (dm nm : String), (∀ b ∈ bad, b ∈ fr) →
      resolveIn d f fr dm nm = resolveIn d2 f fr dm nm := by
  intro f
  induction f with
  | zero => intro fr dm nm _; rfl
  | succ k ih =>
    intro fr dm nm hbad
    by_cases hmem : nm ∈ fr
    · simp [resolveIn, hmem]
    · have hnm : nm ∉ bad := fun hin => hmem (hbad nm hin)
      have hl2 : lookupChain d2 nm = lookupChain d nm := (hag nm hnm).symm
      cases hl : lookupChain d nm with
      | none => simp [resolveIn, hmem, hl, hl2, hl ▸ hl2]
      | some o =>
        rw [hl] at hl2
        cases o with
        | int v => simp [resolveIn, hmem, hl, hl2]
        | str v => simp [resolveIn, hmem, hl, hl2]
        | func v => simp [resolveIn, hmem, hl, hl2]
        | inst a b => simp [resolveIn, hmem, hl, hl2]
        | pyClass c =>
          by_cases hcls : strEndsWith nm "_cls" = true
          · simp [resolveIn, hmem, hl, hl2, hcls]
          · cases hi : effectiveInit c with
            | none => simp [resolveIn, hmem, hl, hl2, hcls, hi]
            | some i =>
              obtain ⟨ps, hvp, hvk⟩ := i
              by_cases hfl : (hvp || hvk) = true
              · simp [resolveIn, hmem, hl, hl2, hcls, hi, hfl]
              · have hbad2 : ∀ b ∈ bad, b ∈ nm :: fr :=
                  fun b hb => List.mem_cons_of_mem nm (hbad b hb)
                have hpt : ∀ pn ∈ ps.map Prod.fst,
                    (fun q => resolveIn d k (nm :: fr) (PyClass.name c) q) pn =
                    (fun q => resolveIn d2 k (nm :: fr) (PyClass.name c) q) pn :=
                  fun pn _ => ih (nm :: fr) (PyClass.name c) pn hbad2
                have heq := resolveKwargs_congr hpt
                simp [resolveIn, hmem, hl, hl2, hcls, hi, hfl, heq]

theorem resolve_ext {d d2 : ContainerDef}
    (h : ∀ m, lookupChain d m = lookupChain d2 m) (nm : String) :
    resolve d nm = resolve d2 nm := by
  have hno1 : resolveIn d (totalFuel d) [] "" nm ≠ .error .stackOverflow := by
    apply resolveIn_no_overflow
    · exact List.nodup_nil
    · intro x hx; simp at hx
    · simp [totalFuel]
  have hno2 : resolveIn d2 (totalFuel d2) [] "" nm ≠ .error .stackOverflow := by
    apply resolveIn_no_overflow
    · exact List.nodup_nil
    · intro x hx; simp at hx
    · simp [totalFuel]
  have h1 : resolveIn d (totalFuel d + totalFuel d2) [] "" nm =
      resolveIn d (totalFuel d) [] "" nm :=
    resolveIn_mono d (totalFuel d) (totalFuel d + totalFuel d2) (by omega) [] "" nm hno1
  have h2 : resolveIn d2 (totalFuel d + totalFuel d2) [] "" nm =
      resolveIn d2 (totalFuel d2) [] "" nm :=
    resolveIn_mono d2 (totalFuel d2) (totalFuel d + totalFuel d2) (by omega) [] "" nm hno2
  have h3 : resolveIn d (totalFuel d + totalFuel d2) [] "" nm =
      resolveIn d2 (totalFuel d + totalFuel d2) [] "" nm :=
    resolveIn_agree d d2 [] (fun m _ => h m) (totalFuel d + totalFuel d2) [] "" nm
      (by intro b hb; simp at hb)
  unfold resolve
  rw [← h1, h3, h2]

theorem resolve_no_overflow (d : ContainerDef) (nm : String) :
    resolve d nm ≠ .error .stackOverflow := by
  unfold resolve
  apply resolveIn_no_overflow
  · exact List.nodup_nil
  · intro x hx; simp at hx
  · simp [totalFuel]

/-! Lemmas about circular dependency chains. -/

theorem cycleLinks_mem_keys {d : ContainerDef} :
    ∀ {path : List (String × String)} {y : String}, cycleLinks d path y →
      ∀ z ∈ path.map Prod.fst, z ∈ keysOf d := by
  intro path
  induction path with
  | nil => intro y _ z hz; simp at hz
  | cons q rest ih =>
    intro y hlinks z hz
    obtain ⟨a, b⟩ := q
    obtain ⟨hlook, -, hrest⟩ := hlinks
    rw [List.map_cons, List.mem_cons] at hz
    rcases hz with rfl | hz
    · exact lookupChain_mem_keys hlook
    · exact ih hrest z hz

theorem resolveIn_cycle (d : ContainerDef) :
    ∀ (path : List (String × String)) (x c : String) (fr : List String)
      (f : Nat) (dm y : String),
      cycleLinks d ((x, c) :: path) y →
      (((x, c) :: path).map Prod.fst).Nodup →
      (∀ z ∈ ((x, c) :: path).map Prod.fst, z ∉ fr) →
      (y ∈ ((x, c) :: path).map Prod.fst ∨ y ∈ fr) →
      path.length + 2 ≤ f →
      resolveIn d f fr dm x = .error (.circle y (lastClass c path)) := by
  intro path
  induction path with
  | nil =>
    intro x c fr f dm y hlinks hnd hfr hy hf
    obtain ⟨hlook, hcls, -⟩ := hlinks
    simp only [nextName] at hlook
    obtain ⟨k, rfl⟩ : ∃ k, f = k + 1 := ⟨f - 1, by omega⟩
    obtain ⟨k2, rfl⟩ : ∃ k2, k = k2 + 1 := ⟨k - 1, by omega⟩
    have hxm : x ∉ fr := hfr x (by simp)
    have hymem : y ∈ x :: fr := by
      rcases hy with hy | hy
      · simp only [List.map_cons, List.map_nil, List.mem_cons] at hy
        rcases hy with rfl | hy
        · exact List.mem_cons_self _ _
        · simp at hy
      · exact List.mem_cons_of_mem _ hy
    have hclsf : ¬(strEndsWith x "_cls" = true) := by simp [hcls]
    simp [resolveIn, resolveKwargs, hxm, hymem, hclsf, hlook, effectiveInit,
      PyClass.name, lastClass]
  | cons q rest ih =>
    intro x c fr f dm y hlinks hnd hfr hy hf
    obtain ⟨x2, c2⟩ := q
    obtain ⟨hlook, hcls, hlinks2⟩ := hlinks
    simp only [nextName] at hlook
    obtain ⟨k, rfl⟩ : ∃ k, f = k + 1 := ⟨f - 1, by omega⟩
    have hxm : x ∉ fr := hfr x (by simp)
    have hclsf : ¬(strEndsWith x "_cls" = true) := by simp [hcls]
    rw [List.map_cons] at hnd
    obtain ⟨hxnot, hnd2⟩ := List.nodup_cons.mp hnd
    have hfr2 : ∀ z ∈ ((x2, c2) :: rest).map Prod.fst, z ∉ x :: fr := by
      intro z hz
      simp only [List.mem_cons]
      rintro (rfl | hzf)
      · exact hxnot hz
      · exact hfr z (List.mem_cons_of_mem _ hz) hzf
    have hy2 : y ∈ ((x2, c2) :: rest).map Prod.fst ∨ y ∈ x :: fr := by
      rcases hy with hy | hy
      · rw [List.map_cons, List.mem_cons] at hy
        rcases hy with rfl | hy
        · right; exact List.mem_cons_self _ _
        · left; exact hy
      · right; exact List.mem_cons_of_mem _ hy
    have hf2 : rest.length + 2 ≤ k := by
      simp only [List.length_cons] at hf; omega
    have hinner := ih x2 c2 (x :: fr) k c y hlinks2 hnd2 hfr2 hy2 hf2
    simp [resolveIn, resolveKwargs, hxm, hclsf, hlook, hinner, effectiveInit,
      PyClass.name, lastClass]

/-! Characterization of parameter resolution when every parameter is
either absent or registered as a plain value. -/

theorem resolveKwargs_outcome (d : ContainerDef)
    {res : String → Except DepError Obj} :
    ∀ ps : List (String × Option Obj),
      (∀ p ∈ ps, res p.1 =
        match lookupChain d p.1 with
        | some v => Except.ok v
        | none => Except.error (DepError.notFound p.1)) →
      resolveKwargs res ps =
        match ps.find? (fun p => (paramOutcome d p).isNone) with
        | some p => .error (.notFound p.1)
        | none =>
          .ok (ps.filterMap (fun p => (paramOutcome d p).map (fun v => (p.1, v)))) := by
  intro ps
  induction ps with
  | nil => simp [resolveKwargs]
  | cons p rest ih =>
    intro hres
    obtain ⟨pname, dflt⟩ := p
    have hhead := hres (pname, dflt) (by simp)
    have htail : ∀ p ∈ rest, res p.1 =
        match lookupChain d p.1 with
        | some v => Except.ok v
        | none => Except.error (DepError.notFound p.1) :=
      fun p hp => hres p (by simp [hp])
    have hrec := ih htail
    cases hl : lookupChain d pname with
    | some v =>
      rw [hl] at hhead
      have hout : paramOutcome d (pname, dflt) = some v := by
        simp [paramOutcome, hl]
      simp only [resolveKwargs, hhead, hrec]
      cases hf : rest.find? (fun p => (paramOutcome d p).isNone) with
      | some q => simp [List.find?_cons, hout, hf]
      | none => simp [List.find?_cons, hout, hf]
    | none =>
      rw [hl] at hhead
      have hout : paramOutcome d (pname, dflt) = dflt := by
        simp [paramOutcome, hl]
      cases dflt with
      | some dv =>
        simp only [resolveKwargs, hhead, hrec]
        cases hf : rest.find? (fun p => (paramOutcome d p).isNone) with
        | some q => simp [List.find?_cons, hout, hf]
        | none => simp [List.find?_cons, hout, hf]
      | none =>
        simp only [resolveKwargs, hhead]
        simp [List.find?_cons, hout]

/-! Lemmas about the mutation entry points. -/

theorem setAttr_ok_valid {d d2 : ContainerDef} {nm : String} {o : Obj}
    (h : setAttr d nm o = .ok d2) : validName nm = true := by
  cases d with
  | nil => simp [setAttr] at h
  | cons r rest =>
    simp only [setAttr] at h
    cases hv : validName nm with
    | true => rfl
    | false => simp [checkSpec, hv] at h

theorem setAttr_ok_shape {r : Registry} {rest : List Registry} {d2 : ContainerDef}
    {nm : String} {o : Obj} (h : setAttr (r :: rest) nm o = .ok d2) :
    d2 = ((nm, o) :: r.filter (fun p => !(p.1 == nm))) :: rest := by
  simp only [setAttr] at h
  cases hc : checkSpec nm o with
  | ok u => rw [hc] at h; simpa using h.symm
  | error e => rw [hc] at h; simp at h

theorem setAttr_invalid {r : Registry} {rest : List Registry} {nm : String} {o : Obj}
    (h : validName nm = false) :
    setAttr (r :: rest) nm o = .error (.reservedName nm) := by
  simp [setAttr, checkSpec, h]

theorem setAttr_fails_of_invalid {nm : String} {o : Obj} (h : validName nm = false) :
    ∀ d : ContainerDef, ∃ e, setAttr d nm o = .error e := by
  intro d
  cases d with
  | nil => exact ⟨.denyModifyBase, rfl⟩
  | cons r rest => exact ⟨.reservedName nm, setAttr_invalid h⟩

theorem declareFrom_fails {p : String × Obj}
    (hp : ∀ d : ContainerDef, ∃ e, setAttr d p.1 p.2 = .error e) :
    ∀ (d : ContainerDef) (ns : List (String × Obj)), p ∈ ns →
      ∃ e, declareFrom d ns = .error e := by
  intro d ns
  induction ns generalizing d with
  | nil => intro hm; simp at hm
  | cons q rest ih =>
    intro hm
    cases hset : setAttr d q.1 q.2 with
    | error e =>
      refine ⟨e, ?_⟩
      obtain ⟨qn, qo⟩ := q
      simp [declareFrom, hset]
    | ok d2 =>
      rcases List.mem_cons.mp hm with rfl | hm2
      · obtain ⟨e, he⟩ := hp d
        rw [hset] at he
        simp at he
      · obtain ⟨e, he⟩ := ih d2 hm2
        refine ⟨e, ?_⟩
        obtain ⟨qn, qo⟩ := q
        simp only [declareFrom]
        rw [hset]
        exact he

theorem setAttr_good {d d2 : ContainerDef} {nm : String} {o : Obj}
    (h : setAttr d nm o = .ok d2) (hg : goodNames d) : goodNames d2 := by
  cases d with
  | nil => simp [setAttr] at h
  | cons r rest =>
    have hshape := setAttr_ok_shape h
    subst hshape
    intro r2 hr2 p hp
    rcases List.mem_cons.mp hr2 with rfl | hr2
    · rcases List.mem_cons.mp hp with rfl | hp
      · exact setAttr_ok_valid h
      · exact hg r (List.mem_cons_self _ _) p (List.mem_of_mem_filter hp)
    · exact hg r2 (List.mem_cons_of_mem _ hr2) p hp

theorem declareFrom_good : ∀ (ns : List (String × Obj)) (d d2 : ContainerDef),
    declareFrom d ns = .ok d2 → goodNames d → goodNames d2 := by
  intro ns
  induction ns with
  | nil =>
    intro d d2 h hg
    simp only [declareFrom] at h
    obtain rfl : d = d2 := by simpa using h
    exact hg
  | cons q rest ih =>
    intro d d2 h hg
    obtain ⟨qn, qo⟩ := q
    simp only [declareFrom] at h
    cases hset : setAttr d qn qo with
    | error e => rw [hset] at h; simp at h
    | ok dmid =>
      rw [hset] at h
      exact ih dmid d2 h (setAttr_good hset hg)

/-! Claim theorems. -/

/-- C1: when a name has an entry in a descendant definition's own
registry, chained lookup returns that entry itself — never a merge with an
ancestor entry — and every resolution over the chain (of that name or of
any name whose dependencies reach it) is unchanged when the ancestors'
entries for the shadowed name are erased: the most-derived specification
wins entirely. -/
theorem most_derived_shadows (r : Registry) (rest : List Registry) (n : String)
    (h : (List.lookup n r).isSome = true) :
    lookupChain (r :: rest) n = List.lookup n r
    ∧ ∀ x, resolve (r :: rest) x = resolve (r :: scrubName n rest) x := by
  constructor
  · cases hl : List.lookup n r with
    | some o => simp [lookupChain, hl]
    | none => rw [hl] at h; simp at h
  · intro x
    apply resolve_ext
    intro m
    by_cases hm : m = n
    · subst hm
      cases hl : List.lookup m r with
      | some o => simp [lookupChain, hl]
      | none => rw [hl] at h; simp at h
    · simp only [lookupChain]
      cases List.lookup m r with
      | some o => rfl
      | none => exact (lookupChain_scrub_ne hm).symm

/-- Witness for C1, mirroring `test_redefine_dependency`: in
`WrongSummator(Summator)` the redefined `add` shadows the ancestor's, the
resolution of `foo` is unaffected by erasing the ancestor's `add`, and the
built instance holds the most-derived specification. -/
theorem most_derived_shadows_witness :
    lookupChain wrongSummator "add" = List.lookup "add" wrongReg
    ∧ resolve wrongSummator "foo" = resolve (wrongReg :: scrubName "add" [summatorReg]) "foo"
    ∧ resolve wrongSummator "foo" = .ok (.inst "Foo" [("add", Obj.func "minus")]) :=
  ⟨(most_derived_shadows wrongReg [summatorReg] "add" rfl).1,
   (most_derived_shadows wrongReg [summatorReg] "add" rfl).2 "foo",
   rfl⟩

/-- C5: a name ending in the reserved suffix and registered with a class
value always resolves to the stored class object itself, never to an
instance of it. -/
theorem cls_suffix_returns_class (d : ContainerDef) (n : String) (c : PyClass)
    (h1 : lookupChain d n = some (.pyClass c))
    (h2 : strEndsWith n "_cls" = true) :
    resolve d n = .ok (.pyClass c) := by
  have hmem : n ∈ keysOf d := lookupChain_mem_keys h1
  have hpos : 0 < (keysOf d).length := List.length_pos_of_mem hmem
  obtain ⟨k, hk⟩ : ∃ k, (keysOf d).length = k + 1 := ⟨(keysOf d).length - 1, by omega⟩
  unfold resolve totalFuel
  rw [hk]
  simp [resolveIn, h1, h2]

/-- Witness for C5, mirroring
`test_do_not_instantiate_dependencies_ended_with_cls`: `Bar.foo_cls` is
the class object. -/
theorem cls_suffix_returns_class_witness :
    resolve barClsContainer "foo_cls" = .ok (.pyClass fooPlainClass) :=
  cls_suffix_returns_class barClsContainer "foo_cls" fooPlainClass rfl rfl

/-- C7: calling any Container Definition as a constructor — the base
definition or any subclass, with any positional or keyword arguments —
fails with the configuration error for direct instantiation, never with an
ordinary argument-mismatch error: the arguments are not even examined. -/
theorem definition_call_denied (d : ContainerDef) (args : List Obj)
    (kwargs : List (String × Obj)) :
    callDefinition d args kwargs = .error .directInstantiation := rfl

theorem resolveIn_class_step (d : ContainerDef) (k : Nat) (fr : List String)
    (dm n : String) (c : PyClass) (ps : List (String × Option Obj))
    (hmem : n ∉ fr)
    (hn : lookupChain d n = some (.pyClass c))
    (hcl : strEndsWith n "_cls" = false)
    (hi : effectiveInit c = some (.mk ps false false)) :
    resolveIn d (k + 1) fr dm n =
      match resolveKwargs (fun q => resolveIn d k (n :: fr) (PyClass.name c) q) ps with
      | .ok kwargs => construct c kwargs
      | .error e => .error e := by
  have hcl2 : ¬(strEndsWith n "_cls" = true) := by simp [hcl]
  simp [resolveIn, hmem, hn, hcl2, hi]

/-- C2: when a constructible is resolved and each of its constructor
parameters is either unregistered or registered as a plain (non-class)
specification, every parameter with a matching registration receives the
registered specification, every unmatched parameter with a default
receives its default, and the first unmatched parameter without a default
aborts the whole top-level resolution with the not-found error for that
parameter. -/
theorem resolve_defaults (d : ContainerDef) (n cn : String)
    (ps : List (String × Option Obj))
    (hn : lookupChain d n =
      some (.pyClass (.mk cn (some (.mk ps false false)) none false)))
    (hcl : strEndsWith n "_cls" = false)
    (hps : ∀ p ∈ ps, plainSpec (lookupChain d p.1) = true) :
    resolve d n =
      match ps.find? (fun p => (paramOutcome d p).isNone) with
      | some p => .error (.notFound p.1)
      | none =>
        .ok (.inst cn (ps.filterMap (fun p => (paramOutcome d p).map (fun v => (p.1, v))))) := by
  have hmem : n ∈ keysOf d := lookupChain_mem_keys hn
  have hpos : 0 < (keysOf d).length := List.length_pos_of_mem hmem
  obtain ⟨k, hk⟩ : ∃ k, (keysOf d).length = k + 1 := ⟨(keysOf d).length - 1, by omega⟩
  have hres : ∀ p ∈ ps, resolveIn d (k + 1) (n :: ([] : List String))
      (PyClass.name (PyClass.mk cn (some (InitSpec.mk ps false false)) none false)) p.1 =
      match lookupChain d p.1 with
      | some v => Except.ok v
      | none => Except.error (DepError.notFound p.1) := by
    intro p hp
    have hplain := hps p hp
    have hpn : p.1 ≠ n := by
      intro he
      rw [he, hn] at hplain
      simp [plainSpec] at hplain
    cases hl : lookupChain d p.1 with
    | none => simp [resolveIn, hpn, hl]
    | some v =>
      cases v with
      | int a => simp [resolveIn, hpn, hl]
      | str a => simp [resolveIn, hpn, hl]
      | func a => simp [resolveIn, hpn, hl]
      | inst a b => simp [resolveIn, hpn, hl]
      | pyClass c2 => rw [hl] at hplain; simp [plainSpec] at hplain
  have hkw := @resolveKwargs_outcome d
    (fun q => resolveIn d (k + 1) (n :: ([] : List String))
      (PyClass.name (PyClass.mk cn (some (InitSpec.mk ps false false)) none false)) q)
    ps
  unfold resolve totalFuel
  rw [hk]
  rw [resolveIn_class_step d (k + 1) [] "" n _ ps (List.not_mem_nil n) hn hcl rfl]
  rw [hkw (by intro p hp; exact hres p hp)]
  cases hf : ps.find? (fun p => (paramOutcome d p).isNone) with
  | some p => simp
  | none => simp [construct, PyClass.raises, PyClass.name]

/-- Witness for C2, mirroring
`test_preserve_missed_keyword_argument_in_the_middle` (the default `y=1`
survives while `x` and `z` are overridden by registrations) and
`test_attribute_error_with_keyword_arguments_present` (the required
parameter `one` is missing, so the whole resolution fails with not-found
even though `two` has a default). -/
theorem resolve_defaults_witness :
    resolve containerXYZ "foo" =
      .ok (.inst "Foo" [("x", Obj.int 5), ("y", Obj.int 1), ("z", Obj.int 1)])
    ∧ resolve barOneTwo "foo" = .error (.notFound "one") := by
  constructor
  · have h := resolve_defaults containerXYZ "foo" "Foo"
      [("x", none), ("y", some (Obj.int 1)), ("z", some (Obj.int 2))] rfl rfl (by decide)
    exact h.trans rfl
  · have h := resolve_defaults barOneTwo "foo" "Foo"
      [("one", none), ("two", some (Obj.int 2))] rfl rfl (by decide)
    exact h.trans rfl

/-- C3: every self-referential dependency chain — a name needing itself, a
pair of names needing each other, or a cycle of any length, registered in
any definition chain (possibly spread across several chained definitions)
— makes resolution of the first name fail with the circular-dependency
error naming that name and the constructible whose constructor demanded
it, not by exhausting the call stack. -/
theorem resolve_circular_chain (d : ContainerDef) (x c : String)
    (path : List (String × String))
    (hlinks : cycleLinks d ((x, c) :: path) x)
    (hnd : (((x, c) :: path).map Prod.fst).Nodup) :
    resolve d x = .error (.circle x (lastClass c path)) := by
  have hkeys : ∀ z ∈ ((x, c) :: path).map Prod.fst, z ∈ keysOf d :=
    cycleLinks_mem_keys hlinks
  have hlen : (((x, c) :: path).map Prod.fst).length ≤ (keysOf d).length :=
    nodup_subset_length hnd hkeys
  have hf : path.length + 2 ≤ totalFuel d := by
    simp only [List.map_cons, List.length_cons, List.length_map] at hlen
    unfold totalFuel
    omega
  unfold resolve
  exact resolveIn_cycle d path x c [] (totalFuel d) "" x hlinks hnd
    (by intro z hz; simp) (Or.inl (by simp)) hf

/-- Witness for C3, mirroring
`test_complex_circle_dependencies_long_circle`: the three-name circle
`foo → bar → baz → foo` resolves to the circular-dependency error naming
`foo` and the class `Baz` whose constructor demanded it. -/
theorem resolve_circular_chain_witness :
    resolve circleTest "foo" = .error (.circle "foo" "Baz") := by
  have hlinks : cycleLinks circleTest
      [("foo", "Foo"), ("bar", "Bar"), ("baz", "Baz")] "foo" :=
    ⟨rfl, rfl, rfl, rfl, rfl, rfl, trivial⟩
  have hnd : (([("foo", "Foo"), ("bar", "Bar"), ("baz", "Baz")] :
      List (String × String)).map Prod.fst).Nodup := by decide
  exact resolve_circular_chain circleTest "foo" "Foo"
    [("bar", "Bar"), ("baz", "Baz")] hlinks hnd

/-- C8: a constructible that defines no initializer of its own — directly
or through ancestors that define none either — has the empty effective
parameter list, so resolution builds its instance with no arguments; and a
class whose own initializer is missing introspects to its ancestor's
initializer, so resolving it is indistinguishable from resolving the same
registration with the ancestor's parameters as its own. -/
theorem no_init_resolution :
    (∀ (cn : String) (p : PyClass) (rb : Bool),
      effectiveInit (PyClass.mk cn none (some p) rb) = effectiveInit p)
    ∧ (∀ (d : ContainerDef) (n : String) (c : PyClass),
        lookupChain d n = some (.pyClass c) → strEndsWith n "_cls" = false →
        effectiveInit c = none → PyClass.raises c = false →
        resolve d n = .ok (.inst (PyClass.name c) []))
    ∧ (∀ (d1 d2 : ContainerDef) (n cn : String) (par : PyClass),
        lookupChain d1 n = some (.pyClass (.mk cn none (some par) false)) →
        lookupChain d2 n = some (.pyClass (.mk cn (effectiveInit par) none false)) →
        strEndsWith n "_cls" = false →
        (∀ m, m ≠ n → lookupChain d1 m = lookupChain d2 m) →
        resolve d1 n = resolve d2 n) := by
  refine ⟨fun cn p rb => by simp [effectiveInit], ?_, ?_⟩
  · intro d n c hn hcl hi hr
    have hmem : n ∈ keysOf d := lookupChain_mem_keys hn
    have hpos : 0 < (keysOf d).length := List.length_pos_of_mem hmem
    obtain ⟨k, hk⟩ : ∃ k, (keysOf d).length = k + 1 := ⟨(keysOf d).length - 1, by omega⟩
    have hcl2 : ¬(strEndsWith n "_cls" = true) := by simp [hcl]
    unfold resolve totalFuel
    rw [hk]
    simp [resolveIn, hn, hcl2, hi, construct, hr]
  · intro d1 d2 n cn par h1 h2 hcl hag
    have hno1 : resolveIn d1 (totalFuel d1) [] "" n ≠ .error .stackOverflow := by
      apply resolveIn_no_overflow
      · exact List.nodup_nil
      · intro x hx; simp at hx
      · simp [totalFuel]
    have hno2 : resolveIn d2 (totalFuel d2) [] "" n ≠ .error .stackOverflow := by
      apply resolveIn_no_overflow
      · exact List.nodup_nil
      · intro x hx; simp at hx
      · simp [totalFuel]
    have e1 : resolveIn d1 (totalFuel d1 + totalFuel d2) [] "" n =
        resolveIn d1 (totalFuel d1) [] "" n :=
      resolveIn_mono d1 (totalFuel d1) (totalFuel d1 + totalFuel d2) (by omega) [] "" n hno1
    have e2 : resolveIn d2 (totalFuel d1 + totalFuel d2) [] "" n =
        resolveIn d2 (totalFuel d2) [] "" n :=
      resolveIn_mono d2 (totalFuel d2) (totalFuel d1 + totalFuel d2) (by omega) [] "" n hno2
    obtain ⟨f, hf⟩ : ∃ f, totalFuel d1 + totalFuel d2 = f + 1 :=
      ⟨totalFuel d1 + totalFuel d2 - 1, by unfold totalFuel; omega⟩
    unfold resolve
    rw [← e1, ← e2, hf]
    have hcl2 : ¬(strEndsWith n "_cls" = true) := by simp [hcl]
    cases hE : effectiveInit par with
    | none =>
      simp [resolveIn, h1, h2, hcl2, hE, effectiveInit, construct,
        PyClass.raises, PyClass.name]
    | some i =>
      obtain ⟨ps, hvp, hvk⟩ := i
      by_cases hfl : (hvp || hvk) = true
      · simp [resolveIn, h1, h2, hcl2, hE, effectiveInit, hfl, PyClass.name]
      · have hpt : ∀ pn ∈ ps.map Prod.fst,
            resolveIn d1 f (n :: ([] : List String)) cn pn =
            resolveIn d2 f (n :: ([] : List String)) cn pn := by
          intro pn _
          apply resolveIn_agree d1 d2 [n]
            (fun m hm => hag m (by simpa using hm)) f (n :: []) cn pn
          intro b hb
          simp only [List.mem_singleton] at hb
          subst hb
          exact List.mem_cons_self _ _
        have hkweq : resolveKwargs (fun q => resolveIn d1 f (n :: ([] : List String)) cn q) ps
            = resolveKwargs (fun q => resolveIn d2 f (n :: ([] : List String)) cn q) ps :=
          resolveKwargs_congr (fun pn hpn => hpt pn hpn)
        simp [resolveIn, h1, h2, hcl2, hE, effectiveInit, hfl, PyClass.name,
          hkweq, construct, PyClass.raises]

/-- Witness for C8, mirroring `test_injectable_with_parent_without_init`
(a class whose whole ancestry lacks an initializer is built with no
arguments) and `test_injectable_with_parent_init` (a class inheriting its
parent's initializer resolves the parent's parameters `x` and `y`). -/
theorem no_init_resolution_witness :
    effectiveInit barChild = effectiveInit fooParentInit
    ∧ resolve bazNoInit "bar" = .ok (.inst "Bar" [])
    ∧ resolve bazParent "bar" = resolve bazParentFlat "bar"
    ∧ resolve bazParent "bar" = .ok (.inst "Bar" [("x", Obj.int 1), ("y", Obj.int 2)]) := by
  refine ⟨no_init_resolution.1 "Bar" fooParentInit false,
    no_init_resolution.2.1 bazNoInit "bar" barNoInitChild rfl rfl rfl rfl,
    no_init_resolution.2.2 bazParent bazParentFlat "bar" "Bar" fooParentInit rfl rfl rfl ?_,
    rfl⟩
  intro m hm
  have hmb : (m == "bar") = false := beq_eq_false_iff_ne.mpr hm
  simp [bazParent, bazParentFlat, lookupChain, List.lookup, hmb]

/-- C4 counterexample: registering a constructible with unbounded
positional or keyword arguments already fails at registration time — the
class-body declaration, the override factory, and plain attribute
assignment each return the configuration error with no resolution
involved, as the repository tests pin — refuting the claim that the error
is raised only when the specification is first resolved. -/
theorem varargs_registration_counterexample :
    declare ([] : ContainerDef) [("foo", Obj.pyClass fooVarPos)] =
      .error (.varArgs "Foo" true false)
    ∧ letFactory ([] : ContainerDef)
        [("foo", Obj.pyClass fooVarBoth), ("args", Obj.str "tuple"),
         ("kwargs", Obj.str "dict")] = .error (.varArgs "Foo" true true)
    ∧ setAttr [([] : Registry)] "foo" (Obj.pyClass fooVarKw) =
        .error (.varArgs "Foo" false true) :=
  ⟨rfl, rfl, rfl⟩

/-- C4 (amended): registering, under a registrable non-suffix name, a
constructible whose effective initializer accepts unbounded positional
arguments, unbounded keyword arguments, or both, fails at registration
time on every mutation path with the configuration error that names the
offending type and which of the two variadic forms (or both) is the
cause. -/
theorem varargs_denied_at_registration (r : Registry) (rest : List Registry)
    (nm : String) (c : PyClass) (ps : List (String × Option Obj)) (hvp hvk : Bool)
    (hvalid : validName nm = true) (hcls : strEndsWith nm "_cls" = false)
    (hinit : effectiveInit c = some (.mk ps hvp hvk))
    (hflags : (hvp || hvk) = true) :
    setAttr (r :: rest) nm (.pyClass c) = .error (.varArgs (PyClass.name c) hvp hvk)
    ∧ (∀ (base : ContainerDef) (ns : List (String × Obj)),
        (nm, Obj.pyClass c) ∈ ns → ∃ e, declare base ns = .error e)
    ∧ DepError.message (.varArgs (PyClass.name c) true false) =
        PyClass.name c ++ ".__init__ have arbitrary argument list"
    ∧ DepError.message (.varArgs (PyClass.name c) false true) =
        PyClass.name c ++ ".__init__ have arbitrary keyword arguments"
    ∧ DepError.message (.varArgs (PyClass.name c) true true) =
        PyClass.name c ++ ".__init__ have arbitrary argument list and keyword arguments" := by
  have hset : ∀ d : ContainerDef, ∃ e, setAttr d nm (Obj.pyClass c) = .error e := by
    intro d
    cases d with
    | nil => exact ⟨.denyModifyBase, rfl⟩
    | cons r2 rest2 =>
      refine ⟨.varArgs (PyClass.name c) hvp hvk, ?_⟩
      simp [setAttr, checkSpec, hvalid, hcls, hinit, hflags]
  refine ⟨?_, ?_, rfl, rfl, rfl⟩
  · simp [setAttr, checkSpec, hvalid, hcls, hinit, hflags]
  · intro base ns hm
    exact declareFrom_fails hset (([] : Registry) :: base) ns hm

/-- Witness for C4's amended theorem, mirroring
`test_deny_arbitrary_positional_and_keyword_arguments_together`:
registering `Foo.__init__(self, *args, **kwargs)` fails at once. -/
theorem varargs_denied_at_registration_witness :
    setAttr [([] : Registry)] "foo" (Obj.pyClass fooVarBoth) =
      .error (.varArgs "Foo" true true)
    ∧ (∃ e, declare ([] : ContainerDef) [("foo", Obj.pyClass fooVarBoth)] = .error e) := by
  have h := varargs_denied_at_registration [] [] "foo" fooVarBoth [] true true rfl rfl rfl rfl
  exact ⟨h.1, h.2.1 [] [("foo", Obj.pyClass fooVarBoth)] (List.mem_cons_self _ _)⟩

/-- C6: the reserved factory name and every dunder-shaped name are
invalid; plain attribute assignment on a mutable definition, class-body
declaration, and the override factory each fail with the configuration
error when asked to register such a name; and every successful mutation
preserves the invariant that no reachable definition holds a reserved
name. -/
theorem reserved_names_denied :
    (validName "let" = false)
    ∧ (∀ nm : String, strStartsWith nm "__" = true → strEndsWith nm "__" = true →
        validName nm = false)
    ∧ (∀ (r : Registry) (rest : List Registry) (nm : String) (o : Obj),
        validName nm = false → setAttr (r :: rest) nm o = .error (.reservedName nm))
    ∧ (∀ (base : ContainerDef) (ns : List (String × Obj)) (p : String × Obj),
        p ∈ ns → validName p.1 = false → ∃ e, declare base ns = .error e)
    ∧ (∀ (base : ContainerDef) (ns : List (String × Obj)) (p : String × Obj),
        p ∈ ns → validName p.1 = false → ∃ e, letFactory base ns = .error e)
    ∧ (∀ (d : ContainerDef) (nm : String) (o : Obj) (d2 : ContainerDef),
        setAttr d nm o = .ok d2 → goodNames d → goodNames d2)
    ∧ (∀ (base : ContainerDef) (ns : List (String × Obj)) (d2 : ContainerDef),
        letFactory base ns = .ok d2 → goodNames base → goodNames d2) := by
  refine ⟨rfl, ?_, ?_, ?_, ?_, ?_, ?_⟩
  · intro nm h1 h2
    simp [validName, h1, h2]
  · intro r rest nm o h
    exact setAttr_invalid h
  · intro base ns p hm hv
    exact declareFrom_fails (setAttr_fails_of_invalid hv) (([] : Registry) :: base) ns hm
  · intro base ns p hm hv
    exact declareFrom_fails (setAttr_fails_of_invalid hv) (([] : Registry) :: base) ns hm
  · intro d nm o d2 h hg
    exact setAttr_good h hg
  · intro base ns d2 h hg
    apply declareFrom_good ns (([] : Registry) :: base) d2 h
    intro r hr p hp
    rcases List.mem_cons.mp hr with rfl | hr2
    · simp at hp
    · exact hg r hr2 p hp

/-- Witness for C6, mirroring `test_deny_magic_methods_injection`,
`test_do_not_redefine_let_with_let` and
`test_deny_let_redefinition_with_attribute_assignment`. -/
theorem reserved_names_denied_witness :
    validName "__eq__" = false
    ∧ setAttr [([] : Registry)] "let" (Obj.int 1) = .error (.reservedName "let")
    ∧ (∃ e, declare ([] : ContainerDef) [("__eq__", Obj.int 1)] = .error e)
    ∧ (∃ e, letFactory [([] : Registry)] [("let", Obj.int 1)] = .error e) :=
  ⟨reserved_names_denied.2.1 "__eq__" rfl rfl,
   reserved_names_denied.2.2.1 [] [] "let" (Obj.int 1) reserved_names_denied.1,
   reserved_names_denied.2.2.2.1 ([] : ContainerDef) [("__eq__", Obj.int 1)]
     ("__eq__", Obj.int 1) (List.mem_cons_self _ _)
     (reserved_names_denied.2.1 "__eq__" rfl rfl),
   reserved_names_denied.2.2.2.2.1 [([] : Registry)] [("let", Obj.int 1)]
     ("let", Obj.int 1) (List.mem_cons_self _ _) reserved_names_denied.1⟩

/-- C9 counterexample: when an ancestor definition also registers the
deleted name, deletion on the descendant succeeds (it removes only the
descendant's own entry) but the very next resolution returns the
ancestor's specification instead of failing with a not-found error — so
resolution after a successful deletion does not always fail. -/
theorem delete_shadow_counterexample :
    deleteAttr [[("bar", Obj.int 2)], [("bar", Obj.int 1)]] "bar" =
      .ok [([] : Registry), [("bar", Obj.int 1)]]
    ∧ resolve [([] : Registry), [("bar", Obj.int 1)]] "bar" = .ok (.int 1) :=
  ⟨rfl, rfl⟩

/-- C9 (amended): attribute-style deletion removes only the entry of the
definition it is invoked on (never an ancestor's), fails with the
not-found error when the name is absent in that definition (including on
the empty base definition), and after a successful deletion resolving the
deleted name fails with the not-found error on the very next access
provided no ancestor definition registers the name. -/
theorem delete_own_entry (r : Registry) (rest : List Registry) (nm : String) :
    (deleteAttr ([] : ContainerDef) nm = .error (.notFound nm))
    ∧ ((List.lookup nm r).isSome = true →
        deleteAttr (r :: rest) nm = .ok ((r.filter (fun p => !(p.1 == nm))) :: rest))
    ∧ (List.lookup nm r = none → deleteAttr (r :: rest) nm = .error (.notFound nm))
    ∧ ((List.lookup nm r).isSome = true → lookupChain rest nm = none →
        resolve ((r.filter (fun p => !(p.1 == nm))) :: rest) nm =
          .error (.notFound nm)) := by
  refine ⟨rfl, ?_, ?_, ?_⟩
  · intro h
    simp [deleteAttr, h]
  · intro h
    simp [deleteAttr, h]
  · intro h1 h2
    have hl : lookupChain ((r.filter (fun p => !(p.1 == nm))) :: rest) nm = none := by
      simp only [lookupChain, lookup_filter_self]
      exact h2
    simp [resolve, totalFuel, resolveIn, hl]

/-- Witness for C9's amended theorem, mirroring `test_unregister_dependency`
and `test_unregister_missing_dependency`: deleting `bar` from `Baz` removes
only that entry, deleting from the base definition fails, resolving the
deleted name fails, and the resolution of `foo`, which needs the deleted
`bar`, fails with not-found on the next access. -/
theorem delete_own_entry_witness :
    deleteAttr bazUnregister "bar" = .ok [[("foo", Obj.pyClass fooNeedsBar)]]
    ∧ deleteAttr ([] : ContainerDef) "foo" = .error (.notFound "foo")
    ∧ resolve [[("foo", Obj.pyClass fooNeedsBar)]] "bar" = .error (.notFound "bar")
    ∧ resolve [[("foo", Obj.pyClass fooNeedsBar)]] "foo" = .error (.notFound "bar") := by
  refine ⟨(delete_own_entry [("foo", Obj.pyClass fooNeedsBar),
      ("bar", Obj.pyClass barPlainClass)] [] "bar").2.1 rfl,
    (delete_own_entry [] [] "foo").1,
    (delete_own_entry [("foo", Obj.pyClass fooNeedsBar),
      ("bar", Obj.pyClass barPlainClass)] [] "bar").2.2.2 rfl rfl,
    rfl⟩

/-- C10: deleting a name registered with a constructible never invokes the
constructible's initializer: for every class — in particular one whose
initializer raises — unregistering the name succeeds and returns the
registry without the entry, even though resolving the same name would run
the initializer and fail. -/
theorem delete_never_constructs (r : Registry) (rest : List Registry)
    (nm : String) (c : PyClass)
    (h : List.lookup nm r = some (.pyClass c)) :
    deleteAttr (r :: rest) nm = .ok ((r.filter (fun p => !(p.1 == nm))) :: rest)
    ∧ (PyClass.raises c = true → effectiveInit c = some (.mk [] false false) →
        strEndsWith nm "_cls" = false →
        resolve (r :: rest) nm = .error (.initFailure (PyClass.name c))) := by
  constructor
  · simp [deleteAttr, h]
  · intro hr hi hcl
    have hlc : lookupChain (r :: rest) nm = some (.pyClass c) := by
      simp [lookupChain, h]
    have hcl2 : ¬(strEndsWith nm "_cls" = true) := by simp [hcl]
    simp [resolve, totalFuel, resolveIn, hlc, hcl2, hi, resolveKwargs, construct, hr]

/-- Witness for C10, mirroring
`test_unregister_do_not_use_object_constructor`: `Foo.__init__` raises,
resolving `foo` therefore fails, yet `del Bar.foo` succeeds. -/
theorem delete_never_constructs_witness :
    deleteAttr barRaising "foo" = .ok [([] : Registry)]
    ∧ resolve barRaising "foo" = .error (.initFailure "Foo") := by
  have h := delete_never_constructs [("foo", Obj.pyClass fooRaising)] [] "foo" fooRaising rfl
  exact ⟨h.1, h.2 rfl rfl rfl⟩
